import Mathlib

/-!
# Verification of the DeepLX relay core

Shallow embedding of the translation-relay implementation
(`src/lib/query.ts`, `src/lib/rateLimit.ts`, proxy/header management)
together with proofs of the specified properties.

Modelling conventions:
* JavaScript strings are modelled as `List Char`; JS numbers that are in
  fact integers (timestamps, ids, counters, sizes) are modelled as `Nat`.
* The token counts of the rate limiter are genuine fractional values and
  are modelled as `ℚ` (all values arising in the proved scenarios are
  exactly representable binary64 numbers, so the `ℚ` model agrees with
  the JS semantics there).
* Current time and random draws are passed as explicit parameters.
-/

/-! ## Timestamp perturbation (query.ts, countLetterI / getTimestamp) -/

/-- JS `Number.MAX_SAFE_INTEGER`. -/
def maxSafeInteger : Nat := 2 ^ 53 - 1

/-- Embedding of `countLetterI` (query.ts lines 96-98):
`text.split("i").length - 1` equals the number of occurrences of the
character `i` in the text. -/
def countLetterI (translateText : List Char) : Nat :=
  translateText.count 'i'

/-- Embedding of `getTimestamp` (query.ts lines 100-119), with the raw
current time `Date.now()` passed explicitly as `timestamp`.
`Math.max(0, letterCount || 0)` is the identity on `Nat`, and the
`try`/`catch` wrapper around pure arithmetic cannot fire. -/
def getTimestamp (letterCount : Nat) (timestamp : Nat) : Nat :=
  if letterCount = 0 then timestamp
  else
    let modValue := letterCount + 1
    if modValue ≤ 0 ∨ modValue > 1000 then timestamp
    else
      let modifiedTimestamp := timestamp - timestamp % modValue + modValue
      if 0 < modifiedTimestamp ∧ modifiedTimestamp ≤ maxSafeInteger ∧
          timestamp - 1000 ≤ modifiedTimestamp
      then modifiedTimestamp
      else timestamp

/-- The timestamp derivation exactly as claim C1 words it: for `n > 0`
the adjusted value `timestamp - timestamp % (n+1) + (n+1)` is used
whenever it stays within 1000 ms of the original (in either direction)
and is a positive safe integer, with no further restriction. -/
def getTimestampClaimed (letterCount : Nat) (timestamp : Nat) : Nat :=
  if letterCount = 0 then timestamp
  else
    let m := letterCount + 1
    let adjusted := timestamp - timestamp % m + m
    if 0 < adjusted ∧ adjusted ≤ maxSafeInteger ∧
        adjusted - timestamp ≤ 1000 ∧ timestamp - adjusted ≤ 1000
    then adjusted
    else timestamp

/-- C1 (counterexample): for a text consisting of 1000 letters `i` and raw
timestamp 1000, the claimed rule accepts the adjusted value 1001 (it is
within 1000 ms of the original and a positive safe integer), but the code
returns the raw timestamp 1000 because of the `modValue > 1000` guard that
the claim does not mention. -/
theorem getTimestamp_claim_counterexample :
    countLetterI (List.replicate 1000 'i') = 1000 ∧
    getTimestamp (countLetterI (List.replicate 1000 'i')) 1000 = 1000 ∧
    getTimestampClaimed (countLetterI (List.replicate 1000 'i')) 1000 = 1001 ∧
    getTimestamp (countLetterI (List.replicate 1000 'i')) 1000 ≠
      getTimestampClaimed (countLetterI (List.replicate 1000 'i')) 1000 := by
  have hc : countLetterI (List.replicate 1000 'i') = 1000 :=
    List.count_replicate_self 'i' 1000
  refine ⟨hc, ?_, ?_, ?_⟩ <;> rw [hc] <;> decide

/-- C1 (amended): for every input text with `n` occurrences of `i` and raw
timestamp `ts` (with `ts` at least 1000 ms below the safe-integer bound):
if `n = 0` the raw timestamp is returned unmodified; if `0 < n ≤ 999` the
perturbation `ts - ts % (n+1) + (n+1)` is applied (its guard conditions
always hold in that range), the result is divisible by `n+1` and lies
within 1000 ms above the original; and if `n ≥ 1000` the raw timestamp is
returned. -/
theorem getTimestamp_spec (text : List Char) (ts : Nat)
    (hsafe : ts + 1000 ≤ maxSafeInteger) :
    (countLetterI text = 0 → getTimestamp (countLetterI text) ts = ts) ∧
    (0 < countLetterI text → countLetterI text ≤ 999 →
      getTimestamp (countLetterI text) ts =
        ts - ts % (countLetterI text + 1) + (countLetterI text + 1) ∧
      getTimestamp (countLetterI text) ts % (countLetterI text + 1) = 0 ∧
      ts < getTimestamp (countLetterI text) ts ∧
      getTimestamp (countLetterI text) ts ≤ ts + 1000) ∧
    (1000 ≤ countLetterI text → getTimestamp (countLetterI text) ts = ts) := by
  generalize countLetterI text = n
  refine ⟨fun h0 => by simp [getTimestamp, h0], ?_, fun hbig => ?_⟩
  · intro hn hn999
    have hr : ts % (n + 1) < n + 1 := Nat.mod_lt _ (by omega)
    have hd := Nat.div_add_mod ts (n + 1)
    have hts1 : ts - ts % (n + 1) + (n + 1) =
        (n + 1) * (ts / (n + 1)) + (n + 1) := by omega
    have hts2 : ts - ts % (n + 1) + (n + 1) = (n + 1) * (ts / (n + 1) + 1) := by
      rw [Nat.mul_add, Nat.mul_one]; exact hts1
    have hmod : (ts - ts % (n + 1) + (n + 1)) % (n + 1) = 0 := by
      rw [hts2]; exact Nat.mul_mod_right _ _
    have heq : getTimestamp n ts = ts - ts % (n + 1) + (n + 1) := by
      simp only [getTimestamp]
      rw [if_neg (by omega : ¬ n = 0), if_neg (by omega), if_pos ⟨by omega, by omega, by omega⟩]
    exact ⟨heq, by rw [heq]; exact hmod, by rw [heq]; omega, by rw [heq]; omega⟩
  · simp only [getTimestamp]
    rw [if_neg (by omega : ¬ n = 0), if_pos (by omega : n + 1 ≤ 0 ∨ n + 1 > 1000)]

/-- Witness for `getTimestamp_spec` at the concrete text `"i"` and raw
timestamp 2000: the perturbed value is 2002, divisible by 2 and within
1000 ms above the original. -/
theorem getTimestamp_spec_witness :
    getTimestamp (countLetterI ['i']) 2000 % (countLetterI ['i'] + 1) = 0 ∧
    2000 < getTimestamp (countLetterI ['i']) 2000 ∧
    getTimestamp (countLetterI ['i']) 2000 ≤ 3000 := by
  have h := (getTimestamp_spec ['i'] 2000 (by norm_num [maxSafeInteger])).2.1
    (by decide) (by decide)
  exact ⟨h.2.1, h.2.2.1, h.2.2.2⟩

/-! ## ASCII case helpers

JS lower/upper-casing as used on header names and language codes; on the
ASCII range (the only characters occurring in header names and the fixed
language table) this agrees with `String.prototype.toLowerCase` /
`toUpperCase`. Lean core `Char.toLower`/`Char.toUpper` are exactly the
ASCII maps. -/

/-- Lower-casing a character twice is the same as doing it once. -/
theorem toNat_ofNat_valid {n : Nat} (h : n.isValidChar) : (Char.ofNat n).toNat = n := by
  rw [Char.ofNat, dif_pos h]; rfl

/-- ASCII lower-casing of a character is idempotent. -/
theorem toLower_toLower (c : Char) : c.toLower.toLower = c.toLower := by
  by_cases h : 65 ≤ c.toNat ∧ c.toNat ≤ 90
  · have hv : (c.toNat + 32).isValidChar := Or.inl (by omega)
    simp only [Char.toLower, ge_iff_le, if_pos h]
    rw [toNat_ofNat_valid hv, if_neg (by omega)]
  · simp [Char.toLower, h]

/-- Upper-casing after lower-casing is plain upper-casing (ASCII). -/
theorem toUpper_toLower (c : Char) : c.toLower.toUpper = c.toUpper := by
  by_cases h : 65 ≤ c.toNat ∧ c.toNat ≤ 90
  · have hv : (c.toNat + 32).isValidChar := Or.inl (by omega)
    simp only [Char.toLower, Char.toUpper, ge_iff_le, if_pos h]
    rw [toNat_ofNat_valid hv, if_pos (by omega), if_neg (by omega),
      show c.toNat + 32 - 32 = c.toNat from by omega, Char.ofNat_toNat]
  · simp only [Char.toLower, ge_iff_le, if_neg h]

/-- JS `toLowerCase` on a string (ASCII range). -/
def lowerStr (s : List Char) : List Char := s.map Char.toLower

/-- JS `toUpperCase` on a string (ASCII range). -/
def upperStr (s : List Char) : List Char := s.map Char.toUpper

/-- Lower-casing a string is idempotent. -/
theorem lowerStr_lowerStr (s : List Char) : lowerStr (lowerStr s) = lowerStr s := by
  induction s with
  | nil => rfl
  | cons c t ih =>
    simp only [lowerStr, List.map_cons] at *
    rw [toLower_toLower]
    exact congrArg _ (by simpa [lowerStr] using ih)

/-- Upper-casing after lower-casing a string is plain upper-casing. -/
theorem upperStr_lowerStr (s : List Char) : upperStr (lowerStr s) = upperStr s := by
  induction s with
  | nil => rfl
  | cons c t ih =>
    simp only [lowerStr, upperStr, List.map_cons] at *
    rw [toUpper_toLower]
    exact congrArg _ ih

/-! ## Language-code normalization (query.ts, normalizeLanguageCode) -/

/-- The fixed language-name table of `normalizeLanguageCode`
(query.ts lines 35-65), in source order. -/
def languageMap : List (List Char × List Char) :=
  [("chinese".data, "ZH".data), ("english".data, "EN".data),
   ("spanish".data, "ES".data), ("french".data, "FR".data),
   ("german".data, "DE".data), ("italian".data, "IT".data),
   ("japanese".data, "JA".data), ("portuguese".data, "PT".data),
   ("russian".data, "RU".data), ("dutch".data, "NL".data),
   ("polish".data, "PL".data), ("swedish".data, "SV".data),
   ("danish".data, "DA".data), ("norwegian".data, "NB".data),
   ("finnish".data, "FI".data), ("czech".data, "CS".data),
   ("slovak".data, "SK".data), ("slovenian".data, "SL".data),
   ("estonian".data, "ET".data), ("latvian".data, "LV".data),
   ("lithuanian".data, "LT".data), ("hungarian".data, "HU".data),
   ("romanian".data, "RO".data), ("bulgarian".data, "BG".data),
   ("greek".data, "EL".data), ("turkish".data, "TR".data),
   ("ukrainian".data, "UK".data), ("korean".data, "KO".data),
   ("indonesian".data, "ID".data)]

/-- Embedding of `normalizeLanguageCode` (query.ts lines 30-68).
A missing (`null`/`undefined`) argument is modelled as `none`; the JS
falsiness test `!langCode` is `none` or the empty string. -/
def normalizeLanguageCode (langCode : Option (List Char)) : List Char :=
  match langCode with
  | none => "auto".data
  | some s =>
    if s = [] ∨ lowerStr s = "auto".data then "auto".data
    else
      let normalized := lowerStr s
      match List.lookup normalized languageMap with
      | some code => code
      | none => upperStr normalized

/-- C9: language-code normalization is case-insensitive: a missing value
and any casing of "auto" map to "auto"; each of the 29 full language
names in the fixed table maps to its ISO code regardless of casing
(e.g. any casing of "german" maps to "DE"); every other value is
returned upper-cased verbatim. -/
theorem normalizeLanguageCode_spec :
    normalizeLanguageCode none = "auto".data ∧
    (∀ s : List Char, lowerStr s = "auto".data →
      normalizeLanguageCode (some s) = "auto".data) ∧
    languageMap.length = 29 ∧
    (∀ e ∈ languageMap, ∀ s : List Char, lowerStr s = e.1 →
      normalizeLanguageCode (some s) = e.2) ∧
    (∀ s : List Char, lowerStr s = "german".data →
      normalizeLanguageCode (some s) = "DE".data) ∧
    (∀ s : List Char, s ≠ [] → lowerStr s ≠ "auto".data →
      List.lookup (lowerStr s) languageMap = none →
      normalizeLanguageCode (some s) = upperStr s) := by
  have htable : ∀ e ∈ languageMap, ∀ s : List Char, lowerStr s = e.1 →
      normalizeLanguageCode (some s) = e.2 := by
    intro e he s hs
    fin_cases he <;>
    · have h1 : ¬ (s = [] ∨ lowerStr s = "auto".data) := by
        rintro (rfl | h)
        · exact absurd hs (by decide)
        · rw [hs] at h; exact absurd h (by decide)
      simp only [normalizeLanguageCode]
      rw [if_neg h1, hs]
      decide
  refine ⟨rfl, ?_, rfl, htable, ?_, ?_⟩
  · intro s hs
    simp [normalizeLanguageCode, hs]
  · intro s hs
    exact htable ("german".data, "DE".data) (by decide) s hs
  · intro s hne hauto hlook
    have h1 : ¬ (s = [] ∨ lowerStr s = "auto".data) := by
      rintro (rfl | h) <;> [exact hne rfl; exact hauto h]
    simp only [normalizeLanguageCode, if_neg h1, hlook]
    exact upperStr_lowerStr s

/-- Witness for `normalizeLanguageCode_spec`: concrete inputs exercising
the "auto" branch, the table branch and the fall-through branch. -/
theorem normalizeLanguageCode_spec_witness :
    normalizeLanguageCode (some "AuTo".data) = "auto".data ∧
    normalizeLanguageCode (some "GERMAN".data) = "DE".data ∧
    normalizeLanguageCode (some "xx".data) = "XX".data := by
  refine ⟨?_, ?_, ?_⟩
  · exact normalizeLanguageCode_spec.2.1 "AuTo".data (by decide)
  · exact normalizeLanguageCode_spec.2.2.2.2.1 "GERMAN".data (by decide)
  · exact (normalizeLanguageCode_spec.2.2.2.2.2 "xx".data (by decide) (by decide)
      (by decide)).trans (by decide)

/-! ## Token-bucket rate limiter (rateLimit.ts)

The local cache entry for one identity. Times are in milliseconds; token
counts are fractional. The asynchronous KV fallback read cannot affect
the admission decision of the call that issues it (it only updates the
local cache later); its effect is modelled as a separate `kvRefresh`
event below. The KV record written by a check carries the same `tokens`
value and `lastRefill = now` as the returned cache entry, so the bounds
proved for cache entries hold for the persisted records as well. -/

structure CacheEntry where
  tokens : ℚ
  lastRefill : ℚ
  lastUpdate : ℚ
deriving DecidableEq

/-- Capacity of the bucket (requests per IP per minute). -/
def DEFAULT_TOKENS_PER_MINUTE : ℚ := 60

/-- Tokens refilled per second. -/
def REFILL_RATE : ℚ := DEFAULT_TOKENS_PER_MINUTE / 60

/-- Freshness window of the in-memory cache, in ms. -/
def CACHE_TTL : ℚ := 15000

/-- Embedding of `checkRateLimit` (rateLimit.ts lines 44-78) for a single
identity: given the current time and the cached state for the identity,
returns the admission decision and the entry stored back into the local
cache (and, with the same `tokens` value, into the KV store). -/
def checkRateLimit (now : ℚ) (cached : Option CacheEntry) : Bool × CacheEntry :=
  let tokens : ℚ :=
    match cached with
    | some c =>
      if now - c.lastUpdate < CACHE_TTL then
        min DEFAULT_TOKENS_PER_MINUTE
          (c.tokens + (now - c.lastRefill) / 1000 * REFILL_RATE)
      else DEFAULT_TOKENS_PER_MINUTE
    | none => DEFAULT_TOKENS_PER_MINUTE
  if tokens < 1 then (false, ⟨tokens, now, now⟩)
  else (true, ⟨tokens - 1, now, now⟩)

/-- Admission results of a back-to-back sequence of checks for one
identity, all issued at the same instant `now`. -/
def checkSeq (now : ℚ) : Nat → Option CacheEntry → List Bool
  | 0, _ => []
  | k + 1, s =>
    let r := checkRateLimit now s
    r.1 :: checkSeq now k (some r.2)

/-- Evaluation of a fresh-cache check on an entry whose refill and update
times equal the current instant: no refill accrues, so the bucket holds
exactly its stored token count (clamped at capacity). -/
theorem checkRateLimit_at_now (t q : ℚ) (hq : q ≤ 60) :
    checkRateLimit t (some ⟨q, t, t⟩) =
      if q < 1 then (false, ⟨q, t, t⟩) else (true, ⟨q - 1, t, t⟩) := by
  have h2 : min DEFAULT_TOKENS_PER_MINUTE (q + (t - t) / 1000 * REFILL_RATE) = q := by
    rw [sub_self, zero_div, zero_mul, add_zero]
    exact min_eq_right hq
  simp only [checkRateLimit]
  rw [if_pos (show t - t < CACHE_TTL by rw [sub_self]; norm_num [CACHE_TTL]), h2]

/-- Counting down from `k ≤ 60` tokens at a fixed instant: the next `k`
checks are admitted and the following one is rejected. -/
theorem checkSeq_countdown (t : ℚ) :
    ∀ k : ℕ, k ≤ 60 →
      checkSeq t (k + 1) (some ⟨(k : ℚ), t, t⟩) = List.replicate k true ++ [false] := by
  intro k
  induction k with
  | zero =>
    intro _
    simp [checkSeq, checkRateLimit_at_now t 0 (by norm_num)]
  | succ k ih =>
    intro hk
    have hcast : ((k : ℚ) + 1) - 1 = (k : ℚ) := by ring
    have hle : ((k : ℚ) + 1) ≤ 60 := by
      have : ((k : ℕ) : ℚ) + 1 ≤ 60 := by exact_mod_cast hk
      simpa using this
    have hstep := checkRateLimit_at_now t ((k : ℚ) + 1) hle
    rw [if_neg (by linarith : ¬ ((k : ℚ) + 1 < 1))] at hstep
    have hb : (checkRateLimit t (some ⟨(k : ℚ) + 1, t, t⟩)).1 = true := by rw [hstep]
    have hs2 : (checkRateLimit t (some ⟨(k : ℚ) + 1, t, t⟩)).2 =
        ⟨(k : ℚ) + 1 - 1, t, t⟩ := by rw [hstep]
    show (checkRateLimit t (some ⟨((k + 1 : ℕ) : ℚ), t, t⟩)).1 ::
        checkSeq t (k + 1) (some (checkRateLimit t (some ⟨((k + 1 : ℕ) : ℚ), t, t⟩)).2) = _
    rw [show (((k + 1 : ℕ)) : ℚ) = (k : ℚ) + 1 by push_cast; ring]
    rw [hb, hs2, hcast, ih (by omega)]
    simp [List.replicate_succ]

/-- C3: for every identity, starting from an unknown (fresh) rate-limit
state, a sequence of 61 back-to-back admission calls issued within a
negligible window (modelled as the same instant `t`) admits the first 60
calls and rejects the 61st. -/
theorem checkRateLimit_burst (t : ℚ) :
    checkSeq t 61 none = List.replicate 60 true ++ [false] := by
  have h0 : checkRateLimit t none =
      (true, ⟨((59 : ℕ) : ℚ), t, t⟩) := by
    simp only [checkRateLimit]
    rw [if_neg (by norm_num [DEFAULT_TOKENS_PER_MINUTE])]
    norm_num [DEFAULT_TOKENS_PER_MINUTE]
  have hb : (checkRateLimit t none).1 = true := by rw [h0]
  have hs2 : (checkRateLimit t none).2 = ⟨((59 : ℕ) : ℚ), t, t⟩ := by rw [h0]
  show (checkRateLimit t none).1 :: checkSeq t 60 (some (checkRateLimit t none).2) = _
  rw [hb, hs2, checkSeq_countdown t 59 (by omega)]
  simp [List.replicate_succ]

/-! ## Rate-limit state invariant (C4) -/

/-- A record persisted in the KV store (`RateLimitEntry` in rateLimit.ts). -/
structure RateLimitEntry where
  tokens : ℚ
  lastRefill : ℚ
deriving DecidableEq

/-- An event touching the cached state of one identity: an admission
check at a given time, or the asynchronous KV fallback callback
(rateLimit.ts lines 57-63) installing a refreshed entry computed from a
KV record. -/
inductive RLEvent where
  | check : ℚ → RLEvent
  | kvRefresh : ℚ → RateLimitEntry → RLEvent
deriving DecidableEq

/-- Time at which an event happens. -/
def eventTime : RLEvent → ℚ
  | .check t => t
  | .kvRefresh t _ => t

/-- Effect of one event on the cached state. -/
def applyEvent (s : Option CacheEntry) : RLEvent → Option CacheEntry
  | .check now => some (checkRateLimit now s).2
  | .kvRefresh now kv =>
    some ⟨min DEFAULT_TOKENS_PER_MINUTE
        (kv.tokens + (now - kv.lastRefill) / 1000 * REFILL_RATE),
      kv.lastRefill, now⟩

/-- Folding a list of events over a state. -/
def runEvents (s : Option CacheEntry) (es : List RLEvent) : Option CacheEntry :=
  es.foldl applyEvent s

/-- Validity of a single event: a KV record fed to the refresh callback
was itself written by a past check, so its token count is within bounds
and its refill anchor is not in the future. -/
def eventOk : RLEvent → Prop
  | .check _ => True
  | .kvRefresh t kv => 0 ≤ kv.tokens ∧ kv.tokens ≤ 60 ∧ kv.lastRefill ≤ t

/-- Events happen at nondecreasing times starting no earlier than `t`. -/
def eventsOk : ℚ → List RLEvent → Prop
  | _, [] => True
  | t, e :: es => t ≤ eventTime e ∧ eventOk e ∧ eventsOk (eventTime e) es

/-- Invariant on the cached state at time `t`. -/
def stateInv (t : ℚ) : Option CacheEntry → Prop
  | none => True
  | some c => 0 ≤ c.tokens ∧ c.tokens ≤ 60 ∧ c.lastRefill ≤ t ∧ c.lastUpdate ≤ t

/-- Accrued refill is nonnegative and the clamped result stays in
`[0, 60]` whenever the stored tokens were in `[0, 60]` and time moved
forward. -/
theorem refill_bounds {tok anchor now : ℚ} (h0 : 0 ≤ tok) (hle : anchor ≤ now) :
    0 ≤ min DEFAULT_TOKENS_PER_MINUTE (tok + (now - anchor) / 1000 * REFILL_RATE) ∧
    min DEFAULT_TOKENS_PER_MINUTE (tok + (now - anchor) / 1000 * REFILL_RATE) ≤ 60 := by
  have hd : (0 : ℚ) ≤ (now - anchor) / 1000 * REFILL_RATE := by
    have h1 : (0 : ℚ) ≤ now - anchor := by linarith
    have h2 : (0 : ℚ) ≤ REFILL_RATE := by norm_num [REFILL_RATE, DEFAULT_TOKENS_PER_MINUTE]
    positivity
  constructor
  · exact le_min (by norm_num [DEFAULT_TOKENS_PER_MINUTE]) (by linarith)
  · exact le_trans (min_le_left _ _) (by norm_num [DEFAULT_TOKENS_PER_MINUTE])

/-- One event preserves the state invariant. -/
theorem applyEvent_inv {t : ℚ} {s : Option CacheEntry} {e : RLEvent}
    (hs : stateInv t s) (ht : t ≤ eventTime e) (he : eventOk e) :
    stateInv (eventTime e) (applyEvent s e) := by
  cases e with
  | check now =>
    simp only [eventTime] at ht ⊢
    have hbounds : 0 ≤ (checkRateLimit now s).2.tokens ∧
        (checkRateLimit now s).2.tokens ≤ 60 ∧
        (checkRateLimit now s).2.lastRefill = now ∧
        (checkRateLimit now s).2.lastUpdate = now := by
      cases s with
      | none =>
        simp only [checkRateLimit]
        rw [if_neg (by norm_num [DEFAULT_TOKENS_PER_MINUTE])]
        norm_num [DEFAULT_TOKENS_PER_MINUTE]
      | some c =>
        obtain ⟨hc0, hc60, hcr, hcu⟩ := hs
        simp only [checkRateLimit]
        by_cases hfresh : now - c.lastUpdate < CACHE_TTL
        · rw [if_pos hfresh]
          obtain ⟨hl, hr⟩ := refill_bounds hc0 (le_trans hcr ht)
          by_cases hlt : min DEFAULT_TOKENS_PER_MINUTE
              (c.tokens + (now - c.lastRefill) / 1000 * REFILL_RATE) < 1
          · rw [if_pos hlt]
            exact ⟨hl, hr, rfl, rfl⟩
          · rw [if_neg hlt]
            push_neg at hlt
            exact ⟨by linarith, by linarith, rfl, rfl⟩
        · rw [if_neg hfresh]
          rw [if_neg (by norm_num [DEFAULT_TOKENS_PER_MINUTE])]
          norm_num [DEFAULT_TOKENS_PER_MINUTE]
    exact ⟨hbounds.1, hbounds.2.1, le_of_eq hbounds.2.2.1, le_of_eq hbounds.2.2.2⟩
  | kvRefresh now kv =>
    simp only [eventTime] at ht ⊢
    obtain ⟨hk0, hk60, hkr⟩ := he
    obtain ⟨hl, hr⟩ := refill_bounds hk0 hkr
    exact ⟨hl, hr, hkr, le_refl now⟩

/-- Folding valid events preserves the invariant at some later time. -/
theorem runEvents_inv : ∀ (es : List RLEvent) (t : ℚ) (s : Option CacheEntry),
    stateInv t s → eventsOk t es → ∃ t2, stateInv t2 (runEvents s es) := by
  intro es
  induction es with
  | nil => exact fun t s hs _ => ⟨t, hs⟩
  | cons e es ih =>
    intro t s hs hok
    exact ih (eventTime e) (applyEvent s e) (applyEvent_inv hs hok.1 hok.2.1) hok.2.2

/-- C4: for every identity and every valid sequence of admission checks
and cache refreshes (times nondecreasing, KV records stemming from past
writes), the token count stored in the rate-limit state — the local
cache entry, whose `tokens` value is also the one persisted to the KV
store — always satisfies `0 ≤ tokens ≤ capacity`, regardless of how much
idle time elapses between checks. -/
theorem rateLimit_tokens_bounded (es : List RLEvent) (t0 : ℚ)
    (hok : eventsOk t0 es) (c : CacheEntry) (hc : runEvents none es = some c) :
    0 ≤ c.tokens ∧ c.tokens ≤ DEFAULT_TOKENS_PER_MINUTE := by
  obtain ⟨t2, hinv⟩ := runEvents_inv es t0 none trivial hok
  rw [hc] at hinv
  exact ⟨hinv.1, by simpa [DEFAULT_TOKENS_PER_MINUTE] using hinv.2.1⟩

/-- Witness for `rateLimit_tokens_bounded`: two checks 20 seconds apart
(the second one past the cache freshness window) end in a stored entry
with 59 tokens, within bounds. -/
theorem rateLimit_tokens_bounded_witness :
    0 ≤ (⟨59, 20000, 20000⟩ : CacheEntry).tokens ∧
    (⟨59, 20000, 20000⟩ : CacheEntry).tokens ≤ DEFAULT_TOKENS_PER_MINUTE := by
  have e1 : checkRateLimit 0 none = (true, ⟨59, 0, 0⟩) := by
    simp only [checkRateLimit]
    rw [if_neg (by norm_num [DEFAULT_TOKENS_PER_MINUTE])]
    norm_num [DEFAULT_TOKENS_PER_MINUTE]
  have e2 : checkRateLimit 20000 (some ⟨59, 0, 0⟩) = (true, ⟨59, 20000, 20000⟩) := by
    simp only [checkRateLimit]
    rw [if_neg (by norm_num [CACHE_TTL] : ¬ ((20000 : ℚ) - 0 < CACHE_TTL)),
      if_neg (by norm_num [DEFAULT_TOKENS_PER_MINUTE])]
    norm_num [DEFAULT_TOKENS_PER_MINUTE]
  exact rateLimit_tokens_bounded [RLEvent.check 0, RLEvent.check 20000] 0
    ⟨by norm_num [eventTime], trivial, by norm_num [eventTime], trivial, trivial⟩
    ⟨59, 20000, 20000⟩
    (by simp [runEvents, applyEvent, e1, e2])

/-! ## Combined admission check (rateLimit.ts, checkCombinedRateLimit) -/

/-- Result record of the combined check. -/
structure RateLimitResult where
  allowed : Bool
  reason : Option (List Char)
deriving DecidableEq

/-- Reason reported when the client bucket rejects. -/
def clientLimitReason : List Char := "Client rate limit exceeded".data

/-- Reason reported when the egress (proxy) bucket rejects. -/
def proxyLimitReason : List Char := "Proxy rate limit exceeded".data

/-- Embedding of `checkCombinedRateLimit` (rateLimit.ts lines 83-98) over
the per-identity states of the two buckets. `hasProxyUrl` models whether
a non-null egress identity was supplied; the two identities key distinct
buckets. The returned pair of states is (client bucket, proxy bucket)
after the call. -/
def checkCombinedRateLimit (now : ℚ) (clientState proxyState : Option CacheEntry)
    (hasProxyUrl : Bool) :
    RateLimitResult × Option CacheEntry × Option CacheEntry :=
  let rc := checkRateLimit now clientState
  if ¬ rc.1 then (⟨false, some clientLimitReason⟩, some rc.2, proxyState)
  else if hasProxyUrl then
    let rp := checkRateLimit now proxyState
    if ¬ rp.1 then (⟨false, some proxyLimitReason⟩, some rc.2, some rp.2)
    else (⟨true, none⟩, some rc.2, some rp.2)
  else (⟨true, none⟩, some rc.2, proxyState)

/-- C5: the combined admission check evaluates the client bucket first
and, if the client is rejected, short-circuits with the client-limit
reason without touching the egress bucket; if the client passes and an
egress identity is supplied, the egress bucket is checked independently,
rejection yielding the proxy-limit reason; each bucket's consumption
happens on its own admission regardless of the other bucket's outcome —
in particular the client state is updated to its consumed state even
when the proxy bucket then rejects. -/
theorem checkCombinedRateLimit_spec (now : ℚ) (cs ps : Option CacheEntry)
    (hasProxy : Bool) :
    ((checkRateLimit now cs).1 = false →
      checkCombinedRateLimit now cs ps hasProxy =
        (⟨false, some clientLimitReason⟩, some (checkRateLimit now cs).2, ps)) ∧
    ((checkRateLimit now cs).1 = true → hasProxy = true →
      (checkRateLimit now ps).1 = false →
      checkCombinedRateLimit now cs ps hasProxy =
        (⟨false, some proxyLimitReason⟩, some (checkRateLimit now cs).2,
          some (checkRateLimit now ps).2)) ∧
    ((checkRateLimit now cs).1 = true → hasProxy = true →
      (checkRateLimit now ps).1 = true →
      checkCombinedRateLimit now cs ps hasProxy =
        (⟨true, none⟩, some (checkRateLimit now cs).2,
          some (checkRateLimit now ps).2)) ∧
    ((checkRateLimit now cs).1 = true → hasProxy = false →
      checkCombinedRateLimit now cs ps hasProxy =
        (⟨true, none⟩, some (checkRateLimit now cs).2, ps)) := by
  refine ⟨fun h1 => ?_, fun h1 h2 h3 => ?_, fun h1 h2 h3 => ?_, fun h1 h2 => ?_⟩
  · simp [checkCombinedRateLimit, h1]
  · simp [checkCombinedRateLimit, h1, h2, h3]
  · simp [checkCombinedRateLimit, h1, h2, h3]
  · simp [checkCombinedRateLimit, h1, h2]

/-- Witness for `checkCombinedRateLimit_spec`: at time 0, a fresh client
bucket admits (spending a token) while an exhausted proxy bucket
rejects, so the call fails with the proxy-limit reason although the
client token was consumed. -/
theorem checkCombinedRateLimit_spec_witness :
    checkCombinedRateLimit 0 none (some ⟨0, 0, 0⟩) true =
      (⟨false, some proxyLimitReason⟩, some ⟨59, 0, 0⟩, some ⟨0, 0, 0⟩) := by
  have e1 : checkRateLimit 0 none = (true, ⟨59, 0, 0⟩) := by
    simp only [checkRateLimit]
    rw [if_neg (by norm_num [DEFAULT_TOKENS_PER_MINUTE])]
    norm_num [DEFAULT_TOKENS_PER_MINUTE]
  have e2 : checkRateLimit 0 (some ⟨0, 0, 0⟩) = (false, ⟨0, 0, 0⟩) := by
    rw [checkRateLimit_at_now 0 0 (by norm_num), if_pos (by norm_num)]
  have h := (checkCombinedRateLimit_spec 0 none (some ⟨0, 0, 0⟩) true).2.1
    (by rw [e1]) rfl (by rw [e2])
  rw [h, e1, e2]

/-! ## Header sanitation (proxyManager, prepareRequestHeaders)

The JS `Headers` container stores names case-insensitively (byte-lowered)
and keeps one entry per name; constructing one from a record appends the
entries in order, combining duplicate names with `", "`. We model it as
an association list whose keys are lower-cased names. The embedding is a
pure function of its input, so the source's requirements of totality and
non-mutation of the input collection hold by construction. -/

/-- One `Headers.append`: combine with an existing entry of the same
(lower-cased) name or add a new entry at the end. -/
def hdrAppend (h : List (List Char × List Char)) (n v : List Char) :
    List (List Char × List Char) :=
  let key := lowerStr n
  if h.any (fun p => p.1 == key) then
    h.map (fun p => if p.1 == key then (p.1, p.2 ++ ", ".data ++ v) else p)
  else h ++ [(key, v)]

/-- `new Headers(record)`: append every pair in order. -/
def headersOfPairs (l : List (List Char × List Char)) :
    List (List Char × List Char) :=
  l.foldl (fun h p => hdrAppend h p.1 p.2) []

/-- `Headers.set`: replace the value of the entry with this name, or add
it at the end. -/
def hdrSet (h : List (List Char × List Char)) (n v : List Char) :
    List (List Char × List Char) :=
  let key := lowerStr n
  if h.any (fun p => p.1 == key) then
    h.map (fun p => if p.1 == key then (p.1, v) else p)
  else h ++ [(key, v)]

/-- `Headers.delete`: drop the entry with this (lower-cased) name. -/
def hdrDelete (h : List (List Char × List Char)) (n : List Char) :
    List (List Char × List Char) :=
  h.filter (fun p => p.1 != lowerStr n)

/-- `Headers.get` (modulo the `null`/value distinction). -/
def hdrGet (h : List (List Char × List Char)) (n : List Char) :
    Option (List Char) :=
  (h.find? (fun p => p.1 == lowerStr n)).map (fun p => p.2)

/-- `Headers.keys()`. -/
def hdrKeys (h : List (List Char × List Char)) : List (List Char) :=
  h.map (fun p => p.1)

/-- Modelled from the spec: the internal-infrastructure header prefix
`CF_HEADER_PREFIX` is imported from `config.ts`, which is outside the
provided sources; the spec and the source comments identify it as the
edge platform's namespace "cf-". -/
def cfHeaderStart : List Char := "cf-".data

/-- The fixed deny-list of forwarding/trace headers
(`removeList` in prepareRequestHeaders). -/
def REMOVE_LIST : List (List Char) :=
  ["x-forwarded-for".data, "x-client-ip".data, "true-client-ip".data,
   "x-real-ip".data, "x-real-client-ip".data, "via".data, "forwarded".data]

/-- The dedicated real-client-IP header name (`REAL_CLIENT_IP_HEADER`,
defined as "X-Real-Client-IP" in the proxy-management source). -/
def REAL_CLIENT_IP_HEADER : List Char := "X-Real-Client-IP".data

/-- The removal test applied to each header name inside
`prepareRequestHeaders`: lower-cased name starts with the internal
prefix or belongs to the deny-list. -/
def shouldStrip (name : List Char) : Bool :=
  (lowerStr cfHeaderStart).isPrefixOf (lowerStr name) ||
    REMOVE_LIST.contains (lowerStr name)

/-- The removal loop of `prepareRequestHeaders`: iterate over a snapshot
of the keys, deleting every name that matches the test. -/
def stripHeaders (h : List (List Char × List Char)) :
    List (List Char × List Char) :=
  (hdrKeys h).foldl
    (fun h2 name => if shouldStrip name then hdrDelete h2 name else h2) h

/-- Embedding of `prepareRequestHeaders` (proxyManager lines 98-131):
copy the input into a fresh `Headers`, remove internal-prefix and
deny-listed names, then inject the real client IP when a non-empty one
is supplied (the JS truthiness test rejects the empty string). -/
def prepareRequestHeaders (origHeaders : List (List Char × List Char))
    (clientIp : Option (List Char)) : List (List Char × List Char) :=
  let newHeaders := headersOfPairs origHeaders
  let cleaned := stripHeaders newHeaders
  match clientIp with
  | some ip => if ip ≠ [] then hdrSet cleaned REAL_CLIENT_IP_HEADER ip else cleaned
  | none => cleaned

/-- All keys produced by `hdrAppend` are lower-cased names. -/
theorem hdrAppend_keys_lower {h : List (List Char × List Char)}
    (hh : ∀ p ∈ h, lowerStr p.1 = p.1) (n v : List Char) :
    ∀ p ∈ hdrAppend h n v, lowerStr p.1 = p.1 := by
  intro p hp
  simp only [hdrAppend] at hp
  by_cases hc : h.any (fun p => p.1 == lowerStr n)
  · rw [if_pos hc] at hp
    obtain ⟨q, hq, hqe⟩ := List.mem_map.1 hp
    by_cases hqk : q.1 == lowerStr n
    · rw [if_pos hqk] at hqe
      rw [← hqe]
      exact hh q hq
    · rw [if_neg hqk] at hqe
      rw [← hqe]
      exact hh q hq
  · rw [if_neg hc] at hp
    rcases List.mem_append.1 hp with h1 | h1
    · exact hh p h1
    · rw [List.mem_singleton.1 h1]
      exact lowerStr_lowerStr n

/-- All keys of a constructed `Headers` are lower-cased names. -/
theorem headersOfPairs_keys_lower (l : List (List Char × List Char)) :
    ∀ p ∈ headersOfPairs l, lowerStr p.1 = p.1 := by
  suffices h : ∀ (l h0 : List (List Char × List Char)),
      (∀ p ∈ h0, lowerStr p.1 = p.1) →
      ∀ p ∈ l.foldl (fun h p => hdrAppend h p.1 p.2) h0, lowerStr p.1 = p.1 by
    exact h l [] (by simp)
  intro l
  induction l with
  | nil => exact fun h0 hh => hh
  | cons q t ih =>
    intro h0 hh
    exact ih (hdrAppend h0 q.1 q.2) (hdrAppend_keys_lower hh q.1 q.2)

/-- Surviving the removal loop means having been in the input and not
matching any processed name that satisfies the strip test. -/
theorem mem_stripFold :
    ∀ (names : List (List Char)) (h : List (List Char × List Char))
      (p : List Char × List Char),
      p ∈ names.foldl
        (fun h2 name => if shouldStrip name then hdrDelete h2 name else h2) h →
      p ∈ h ∧ ∀ name ∈ names, shouldStrip name = true → p.1 ≠ lowerStr name := by
  intro names
  induction names with
  | nil => exact fun h p hp => ⟨hp, by simp⟩
  | cons name t ih =>
    intro h p hp
    rw [List.foldl_cons] at hp
    obtain ⟨hmem, hrest⟩ := ih _ p hp
    by_cases hs : shouldStrip name
    · rw [if_pos hs] at hmem
      simp only [hdrDelete, List.mem_filter, bne_iff_ne] at hmem
      refine ⟨hmem.1, ?_⟩
      intro m hm
      rcases List.mem_cons.1 hm with rfl | hm2
      · exact fun _ => hmem.2
      · exact hrest m hm2
    · rw [if_neg hs] at hmem
      refine ⟨hmem, ?_⟩
      intro m hm
      rcases List.mem_cons.1 hm with rfl | hm2
      · intro hcon; exact absurd hcon hs
      · exact hrest m hm2

/-- An entry of the cleaned collection neither matches the internal
prefix nor the deny-list. -/
theorem mem_stripHeaders {h : List (List Char × List Char)}
    (hlow : ∀ p ∈ h, lowerStr p.1 = p.1) :
    ∀ p ∈ stripHeaders h, p ∈ h ∧ shouldStrip p.1 = false := by
  intro p hp
  obtain ⟨hmem, hall⟩ := mem_stripFold (hdrKeys h) h p hp
  refine ⟨hmem, ?_⟩
  by_cases hs : shouldStrip p.1
  · exact absurd (hlow p hmem)
      (Ne.symm (hall p.1 (List.mem_map.2 ⟨p, hmem, rfl⟩) hs))
  · exact Bool.of_not_eq_true hs

/-- Looking up the key just set in the replace branch yields the new
value. -/
theorem find_map_set (h : List (List Char × List Char)) (k v : List Char) :
    h.any (fun p => p.1 == k) = true →
    ((h.map (fun p => if p.1 == k then (p.1, v) else p)).find?
        (fun p => p.1 == k)).map (fun p => p.2) = some v := by
  induction h with
  | nil => intro hc; simp at hc
  | cons q t ih =>
    intro hc
    by_cases hq : (q.1 == k) = true
    · simp only [List.map_cons, if_pos hq]
      rw [List.find?_cons_of_pos _ (by simpa using hq)]
      rfl
    · simp only [List.map_cons, if_neg hq]
      rw [List.find?_cons_of_neg _ (by simpa using hq)]
      apply ih
      simp only [List.any_cons, Bool.or_eq_true] at hc
      rcases hc with hc | hc
      · exact absurd hc hq
      · exact hc

/-- Looking up the key just set in the append branch yields the new
value. -/
theorem find_append_set (h : List (List Char × List Char)) (k v : List Char) :
    (∀ p ∈ h, (p.1 == k) = false) →
    (((h ++ [(k, v)]).find? (fun p => p.1 == k)).map (fun p => p.2)) = some v := by
  induction h with
  | nil =>
    intro _
    rw [List.nil_append, List.find?_cons_of_pos _ (by simp)]
    rfl
  | cons q t ih =>
    intro hall
    rw [List.cons_append,
      List.find?_cons_of_neg _ (by simpa using hall q (List.mem_cons_self q t))]
    exact ih fun p hp => hall p (List.mem_cons_of_mem q hp)

/-- `get` after `set` returns the value just set. -/
theorem hdrGet_hdrSet (h : List (List Char × List Char)) (n v : List Char) :
    hdrGet (hdrSet h n v) n = some v := by
  simp only [hdrGet, hdrSet]
  by_cases hc : h.any (fun p => p.1 == lowerStr n) = true
  · rw [if_pos hc]
    exact find_map_set h (lowerStr n) v hc
  · rw [if_neg hc]
    refine find_append_set h (lowerStr n) v fun p hp => ?_
    rw [Bool.not_eq_true, List.any_eq_false] at hc
    simpa using hc p hp

/-- Membership in the result of `set`: either the freshly set entry or
an untouched entry with a different key. -/
theorem mem_hdrSet {h : List (List Char × List Char)} {n v : List Char} :
    ∀ p ∈ hdrSet h n v,
      (p.1 = lowerStr n ∧ p.2 = v) ∨ (p ∈ h ∧ p.1 ≠ lowerStr n) := by
  intro p hp
  simp only [hdrSet] at hp
  by_cases hc : h.any (fun p => p.1 == lowerStr n) = true
  · rw [if_pos hc] at hp
    obtain ⟨q, hq, hqe⟩ := List.mem_map.1 hp
    by_cases hqk : (q.1 == lowerStr n) = true
    · rw [if_pos hqk] at hqe
      exact Or.inl ⟨by rw [← hqe]; exact eq_of_beq hqk, by rw [← hqe]⟩
    · rw [if_neg hqk] at hqe
      refine Or.inr ⟨hqe ▸ hq, ?_⟩
      rw [← hqe]
      exact fun hcon => hqk (by simp [hcon])
  · rw [if_neg hc] at hp
    rw [Bool.not_eq_true, List.any_eq_false] at hc
    rcases List.mem_append.1 hp with h1 | h1
    · exact Or.inr ⟨h1, fun hcon => by simpa [hcon] using hc p h1⟩
    · rw [List.mem_singleton.1 h1]
      exact Or.inl ⟨rfl, rfl⟩

/-- After the removal loop, no entry answers to the dedicated
real-client-IP name. -/
theorem hdrGet_stripHeaders_realip (orig : List (List Char × List Char)) :
    hdrGet (stripHeaders (headersOfPairs orig)) REAL_CLIENT_IP_HEADER = none := by
  simp only [hdrGet]
  have hnone : (stripHeaders (headersOfPairs orig)).find?
      (fun p => p.1 == lowerStr REAL_CLIENT_IP_HEADER) = none := by
    rw [List.find?_eq_none]
    intro p hp hbeq
    obtain ⟨_, hstrip⟩ :=
      mem_stripHeaders (headersOfPairs_keys_lower orig) p hp
    rw [eq_of_beq hbeq] at hstrip
    exact absurd hstrip (by decide)
  rw [hnone]
  rfl

/-- C6: sanitizing headers removes every header whose name
case-insensitively starts with the internal-infrastructure prefix and
every header on the fixed deny-list; whenever a non-empty client IP is
supplied it is set under the dedicated header name (the only deny-listed
name that may appear in the output, and only as this injection,
replacing any prior value); this holds for every input header
collection, including one with zero matching headers. The embedding is a
total pure function, so it cannot throw and does not mutate its input. -/
theorem prepareRequestHeaders_spec (orig : List (List Char × List Char))
    (clientIp : Option (List Char)) :
    (∀ p ∈ prepareRequestHeaders orig clientIp,
      (lowerStr cfHeaderStart).isPrefixOf (lowerStr p.1) = false) ∧
    (∀ p ∈ prepareRequestHeaders orig clientIp, lowerStr p.1 ∈ REMOVE_LIST →
      ∃ ip, clientIp = some ip ∧ ip ≠ [] ∧
        p.1 = lowerStr REAL_CLIENT_IP_HEADER ∧ p.2 = ip) ∧
    (∀ ip, clientIp = some ip → ip ≠ [] →
      hdrGet (prepareRequestHeaders orig clientIp) REAL_CLIENT_IP_HEADER = some ip) := by
  have hlow := headersOfPairs_keys_lower orig
  have hmemsplit : ∀ p ∈ prepareRequestHeaders orig clientIp,
      (p.1 = lowerStr REAL_CLIENT_IP_HEADER ∧
        ∃ ip, clientIp = some ip ∧ ip ≠ [] ∧ p.2 = ip) ∨
      p ∈ stripHeaders (headersOfPairs orig) := by
    intro p hp
    cases clientIp with
    | none => exact Or.inr hp
    | some ip =>
      by_cases hne : ip ≠ []
      · rw [show prepareRequestHeaders orig (some ip) =
            hdrSet (stripHeaders (headersOfPairs orig)) REAL_CLIENT_IP_HEADER ip
            from by simp [prepareRequestHeaders, hne]] at hp
        rcases mem_hdrSet p hp with ⟨h1, h2⟩ | ⟨h1, _⟩
        · exact Or.inl ⟨h1, ip, rfl, hne, h2⟩
        · exact Or.inr h1
      · rw [show prepareRequestHeaders orig (some ip) =
            stripHeaders (headersOfPairs orig)
            from by simp [prepareRequestHeaders, hne]] at hp
        exact Or.inr hp
  refine ⟨?_, ?_, ?_⟩
  · intro p hp
    rcases hmemsplit p hp with ⟨h1, _⟩ | h1
    · rw [h1, lowerStr_lowerStr]
      decide
    · have := (mem_stripHeaders hlow p h1).2
      simp only [shouldStrip, Bool.or_eq_false_iff] at this
      exact this.1
  · intro p hp hmem
    rcases hmemsplit p hp with ⟨h1, ip, hip, hne, h2⟩ | h1
    · exact ⟨ip, hip, hne, h1, h2⟩
    · have hstrip := (mem_stripHeaders hlow p h1).2
      have hcontains : REMOVE_LIST.contains (lowerStr p.1) = true :=
        List.elem_iff.2 hmem
      simp only [shouldStrip, Bool.or_eq_false_iff] at hstrip
      rw [hstrip.2] at hcontains
      exact absurd hcontains (by decide)
  · intro ip hip hne
    subst hip
    rw [show prepareRequestHeaders orig (some ip) =
        hdrSet (stripHeaders (headersOfPairs orig)) REAL_CLIENT_IP_HEADER ip
        from by simp [prepareRequestHeaders, hne]]
    exact hdrGet_hdrSet _ _ _

/-- Witness for `prepareRequestHeaders_spec`: a concrete header set with
one internal-prefix header, one deny-listed header and one ordinary
header, sanitized with a client IP supplied. -/
theorem prepareRequestHeaders_spec_witness :
    hdrGet (prepareRequestHeaders
        [("CF-Connecting-IP".data, "10.0.0.1".data),
         ("X-Forwarded-For".data, "10.0.0.2".data),
         ("Accept".data, "any".data)] (some "9.9.9.9".data))
      REAL_CLIENT_IP_HEADER = some "9.9.9.9".data ∧
    (lowerStr cfHeaderStart).isPrefixOf
      (lowerStr ("accept".data, "any".data).1) = false := by
  constructor
  · exact (prepareRequestHeaders_spec
      [("CF-Connecting-IP".data, "10.0.0.1".data),
       ("X-Forwarded-For".data, "10.0.0.2".data),
       ("Accept".data, "any".data)] (some "9.9.9.9".data)).2.2
      "9.9.9.9".data rfl (by decide)
  · exact (prepareRequestHeaders_spec
      [("CF-Connecting-IP".data, "10.0.0.1".data),
       ("X-Forwarded-For".data, "10.0.0.2".data),
       ("Accept".data, "any".data)] (some "9.9.9.9".data)).1
      ("accept".data, "any".data) (by decide)

/-- C10: the sanitized collection answers to the dedicated
real-client-IP header name exactly when a non-empty client IP was
supplied, and then with exactly that value; any caller-supplied value
under that name is removed first (it is on the deny-list), so a spoofed
value cannot be smuggled through when no client IP is given. -/
theorem prepareRequestHeaders_realIP_iff (orig : List (List Char × List Char))
    (clientIp : Option (List Char)) (v : List Char) :
    hdrGet (prepareRequestHeaders orig clientIp) REAL_CLIENT_IP_HEADER = some v ↔
      (clientIp = some v ∧ v ≠ []) := by
  constructor
  · intro hget
    cases clientIp with
    | none =>
      rw [show prepareRequestHeaders orig none =
          stripHeaders (headersOfPairs orig) from rfl,
        hdrGet_stripHeaders_realip] at hget
      exact absurd hget (by simp)
    | some ip =>
      by_cases hne : ip ≠ []
      · rw [show prepareRequestHeaders orig (some ip) =
            hdrSet (stripHeaders (headersOfPairs orig)) REAL_CLIENT_IP_HEADER ip
            from by simp [prepareRequestHeaders, hne],
          hdrGet_hdrSet] at hget
        obtain rfl := Option.some.inj hget
        exact ⟨rfl, hne⟩
      · rw [show prepareRequestHeaders orig (some ip) =
            stripHeaders (headersOfPairs orig)
            from by simp [prepareRequestHeaders, hne],
          hdrGet_stripHeaders_realip] at hget
        exact absurd hget (by simp)
  · rintro ⟨rfl, hne⟩
    rw [show prepareRequestHeaders orig (some v) =
        hdrSet (stripHeaders (headersOfPairs orig)) REAL_CLIENT_IP_HEADER v
        from by simp [prepareRequestHeaders, hne]]
    exact hdrGet_hdrSet _ _ _

/-- Witness for `prepareRequestHeaders_realIP_iff`: a caller-supplied
real-client-IP header does not survive sanitation without a client IP,
and a supplied client IP is returned exactly. -/
theorem prepareRequestHeaders_realIP_iff_witness :
    hdrGet (prepareRequestHeaders [("X-Real-Client-IP".data, "6.6.6.6".data)] none)
      REAL_CLIENT_IP_HEADER ≠ some "6.6.6.6".data ∧
    hdrGet (prepareRequestHeaders [] (some "1.2.3.4".data))
      REAL_CLIENT_IP_HEADER = some "1.2.3.4".data := by
  constructor
  · intro hcon
    exact absurd ((prepareRequestHeaders_realIP_iff
      [("X-Real-Client-IP".data, "6.6.6.6".data)] none "6.6.6.6".data).1 hcon).1
      (by simp)
  · exact (prepareRequestHeaders_realIP_iff [] (some "1.2.3.4".data)
      "1.2.3.4".data).2 ⟨rfl, by decide⟩

/-! ## Request serialization and the JSON-spacing variant (query.ts,
buildRequestBody) -/

/-- JS `String.prototype.replace` with a plain (non-empty) string
pattern: rewrite the first occurrence only, return the string unchanged
when the pattern does not occur. -/
def replaceFirst (pat rep : List Char) : List Char → List Char
  | [] => []
  | c :: rest =>
    if pat.isPrefixOf (c :: rest) then rep ++ (c :: rest).drop pat.length
    else c :: replaceFirst pat rep rest

/-- Decidable evidence that the pattern cannot match at offset `i`: some
pattern position disagrees with the text inside `a` itself (so the
mismatch is independent of whatever follows `a`). -/
def mismatchAt (pat a : List Char) (i : Nat) : Bool :=
  (List.range pat.length).any fun j =>
    decide (i + j < a.length) && decide (a[i + j]? ≠ pat[j]?)

/-- A mismatch recorded inside `a` at offset 0 rules out a match at the
head of `a ++ b` for every continuation `b`. -/
theorem not_prefix_of_mismatchAt {pat a : List Char}
    (h : mismatchAt pat a 0 = true) (b : List Char) :
    pat.isPrefixOf (a ++ b) = false := by
  by_contra hcon
  rw [Bool.not_eq_false, List.isPrefixOf_iff_prefix] at hcon
  obtain ⟨t, ht⟩ := hcon
  simp only [mismatchAt, List.any_eq_true, List.mem_range, Bool.and_eq_true,
    decide_eq_true_eq, Nat.zero_add] at h
  obtain ⟨j, hj, hlen, hne⟩ := h
  apply hne
  calc a[j]? = (a ++ b)[j]? := (List.getElem?_append_left hlen).symm
    _ = (pat ++ t)[j]? := by rw [ht]
    _ = pat[j]? := List.getElem?_append_left hj

/-- Shifting the mismatch test past the head of the text. -/
theorem mismatchAt_cons (pat : List Char) (c : Char) (t : List Char) (i : Nat) :
    mismatchAt pat (c :: t) (i + 1) = mismatchAt pat t i := by
  rw [Bool.eq_iff_iff]
  simp only [mismatchAt, List.any_eq_true, List.mem_range, Bool.and_eq_true,
    decide_eq_true_eq]
  constructor
  · rintro ⟨j, hj, hlen, hne⟩
    refine ⟨j, hj, by rw [List.length_cons] at hlen; omega, ?_⟩
    rwa [show i + 1 + j = (i + j) + 1 from by omega, List.getElem?_cons_succ] at hne
  · rintro ⟨j, hj, hlen, hne⟩
    refine ⟨j, hj, by rw [List.length_cons]; omega, ?_⟩
    rwa [show i + 1 + j = (i + j) + 1 from by omega, List.getElem?_cons_succ]

/-- A non-empty pattern is a prefix of itself followed by anything. -/
theorem isPrefixOf_append_self (pat b : List Char) :
    pat.isPrefixOf (pat ++ b) = true := by
  rw [List.isPrefixOf_iff_prefix]
  exact ⟨b, rfl⟩

/-- Replacing the first occurrence of a pattern that occurs exactly at
the end of the known block `a` (offset `k`), while every earlier offset
carries a mismatch inside `a`: the result rewrites that occurrence and
leaves the continuation `b` untouched, for every `b`. -/
theorem replaceFirst_block (pat rep : List Char) (hp : pat ≠ []) :
    ∀ (k : Nat) (a b : List Char), a.length = k + pat.length → a.drop k = pat →
      (∀ i, i < k → mismatchAt pat a i = true) →
      replaceFirst pat rep (a ++ b) = a.take k ++ rep ++ b := by
  intro k
  induction k with
  | zero =>
    intro a b _ hdrop _
    rw [List.drop_zero] at hdrop
    subst hdrop
    obtain ⟨c, cs, rfl⟩ : ∃ c cs, a = c :: cs := by
      cases a with
      | nil => exact absurd rfl hp
      | cons c cs => exact ⟨c, cs, rfl⟩
    rw [List.cons_append]
    simp only [replaceFirst]
    rw [← List.cons_append, if_pos (isPrefixOf_append_self (c :: cs) b),
      List.drop_left, List.take_zero, List.nil_append]
  | succ k ih =>
    intro a b hlen hdrop hno
    cases a with
    | nil => rw [List.length_nil] at hlen; omega
    | cons c t =>
      rw [List.cons_append]
      simp only [replaceFirst]
      rw [if_neg ?_]
      · rw [ih t b (by rw [List.length_cons] at hlen; omega)
          (by simpa using hdrop)
          (fun i hi => by
            have := hno (i + 1) (by omega)
            rwa [mismatchAt_cons] at this)]
        simp [List.take_succ_cons]
      · have hne := not_prefix_of_mismatchAt (hno 0 (Nat.succ_pos k)) b
        rw [List.cons_append] at hne
        simp [hne]

/-- Decimal rendering of a JS integer. -/
def natChars (n : Nat) : List Char := (Nat.repr n).data

/-- Lower-case hexadecimal digit. -/
def hexDigit (n : Nat) : Char :=
  if n < 10 then Char.ofNat (48 + n) else Char.ofNat (87 + n)

/-- Escaping of one character inside a JSON string literal, as performed
by `JSON.stringify`. -/
def jsonEscapeChar (c : Char) : List Char :=
  if c = '"' then ['\\', '"']
  else if c = '\\' then ['\\', '\\']
  else if c = '\x08' then ['\\', 'b']
  else if c = '\x09' then ['\\', 't']
  else if c = '\x0a' then ['\\', 'n']
  else if c = '\x0c' then ['\\', 'f']
  else if c = '\x0d' then ['\\', 'r']
  else if c.toNat < 32 then
    ['\\', 'u', '0', '0', hexDigit (c.toNat / 16), hexDigit (c.toNat % 16)]
  else [c]

/-- `JSON.stringify` escaping of a string body. -/
def jsonEscape (s : List Char) : List Char := s.flatMap jsonEscapeChar

/-- The serialized request envelope, exactly as `JSON.stringify` renders
the object built by `buildRequestParams`/`buildRequestBody` (insertion
order of the keys; `REQUEST_ALTERNATIVES` is imported from `const.ts`,
outside the provided sources, and stays a parameter). -/
def jsonSerializeBody (requestId ts : Nat) (text srcLang tgtLang : List Char)
    (alternatives : Nat) : List Char :=
  "\x7b\"jsonrpc\":\"2.0\",\"method\":\"LMT_handle_texts\",\"id\":".data ++
  natChars requestId ++
  ",\"params\":\x7b\"texts\":[\x7b\"text\":\"".data ++ jsonEscape text ++
  "\",\"requestAlternatives\":".data ++ natChars alternatives ++
  "\x7d],\"timestamp\":".data ++ natChars ts ++
  ",\"splitting\":\"newlines\",\"lang\":\x7b\"source_lang_user_selected\":\"".data ++
  jsonEscape srcLang ++
  "\",\"target_lang\":\"".data ++ jsonEscape tgtLang ++ "\"\x7d\x7d\x7d".data

/-- The first 27 characters of every serialized body. -/
def bodyHead : List Char := "\x7b\"jsonrpc\":\"2.0\",\"method\":\"".data

/-- Everything after the first 27 characters of the serialized body. -/
def jsonBodyTail (requestId ts : Nat) (text srcLang tgtLang : List Char)
    (alternatives : Nat) : List Char :=
  "LMT_handle_texts\",\"id\":".data ++ natChars requestId ++
  ",\"params\":\x7b\"texts\":[\x7b\"text\":\"".data ++ jsonEscape text ++
  "\",\"requestAlternatives\":".data ++ natChars alternatives ++
  "\x7d],\"timestamp\":".data ++ natChars ts ++
  ",\"splitting\":\"newlines\",\"lang\":\x7b\"source_lang_user_selected\":\"".data ++
  jsonEscape srcLang ++
  "\",\"target_lang\":\"".data ++ jsonEscape tgtLang ++ "\"\x7d\x7d\x7d".data

set_option maxRecDepth 4096 in
/-- Splitting the serialized body after its 27-character head. -/
theorem jsonSerializeBody_split (requestId ts : Nat)
    (text srcLang tgtLang : List Char) (alternatives : Nat) :
    jsonSerializeBody requestId ts text srcLang tgtLang alternatives =
      bodyHead ++ jsonBodyTail requestId ts text srcLang tgtLang alternatives := by
  simp only [jsonSerializeBody, jsonBodyTail, bodyHead, List.append_assoc,
    List.cons_append, List.nil_append]

/-- The pattern rewritten by the spacing quirk. -/
def methodPat : List Char := "\"method\":\"".data

/-- The spaced replacement. -/
def methodSpaced : List Char := "\"method\" : \"".data

/-- The compact replacement. -/
def methodCompact : List Char := "\"method\": \"".data

/-- The id-dependent trigger of the spacing variant
(query.ts line 159). -/
def spacingCondition (requestId : Nat) : Bool :=
  ((requestId + 5) % 29 == 0) || ((requestId + 3) % 13 == 0)

/-- The spacing rewrite applied to the serialized body
(query.ts lines 157-163). -/
def applyMethodSpacing (requestId : Nat) (s : List Char) : List Char :=
  if spacingCondition requestId then replaceFirst methodPat methodSpaced s
  else replaceFirst methodPat methodCompact s

/-- Replacing the method pattern in a serialized body rewrites exactly
the occurrence at offset 17 of the head, regardless of the tail. -/
theorem replaceFirst_bodyHead (rep b : List Char) :
    replaceFirst methodPat rep (bodyHead ++ b) =
      "\x7b\"jsonrpc\":\"2.0\",".data ++ rep ++ b := by
  have hall : (List.range 17).all (fun i => mismatchAt methodPat bodyHead i) = true := by
    decide
  have h := replaceFirst_block methodPat rep (by decide) 17 bodyHead b
    (by decide) (by decide)
    (fun i hi => List.all_eq_true.1 hall i (List.mem_range.2 hi))
  rwa [show bodyHead.take 17 = "\x7b\"jsonrpc\":\"2.0\",".data from by decide] at h

/-- C2: the JSON-spacing variant applied to every serialized request
body is a deterministic function of the request id: when
`(id+5) % 29 = 0` or `(id+3) % 13 = 0` the substring rendering of the
method key becomes the spaced form, otherwise the compact form; exactly
one of the two (distinct) forms appears in the result, at the single
rewritten occurrence; id 24 yields the spaced form and id 1 the compact
form. -/
theorem buildRequestBody_spacing (requestId ts : Nat)
    (text srcLang tgtLang : List Char) (alternatives : Nat) :
    applyMethodSpacing requestId
        (jsonSerializeBody requestId ts text srcLang tgtLang alternatives) =
      "\x7b\"jsonrpc\":\"2.0\",".data ++
        (if spacingCondition requestId then methodSpaced else methodCompact) ++
        jsonBodyTail requestId ts text srcLang tgtLang alternatives ∧
    (spacingCondition requestId = true ↔
      (requestId + 5) % 29 = 0 ∨ (requestId + 3) % 13 = 0) ∧
    methodSpaced ≠ methodCompact ∧
    spacingCondition 24 = true ∧
    spacingCondition 1 = false := by
  refine ⟨?_, ?_, by decide, by decide, by decide⟩
  · rw [jsonSerializeBody_split]
    by_cases hc : spacingCondition requestId
    · rw [applyMethodSpacing, if_pos hc, if_pos hc, replaceFirst_bodyHead]
    · rw [applyMethodSpacing, if_neg hc, if_neg hc, replaceFirst_bodyHead]
  · simp [spacingCondition, Bool.or_eq_true, beq_iff_eq]

/-! ## Request-body construction and its failure cases (query.ts,
buildRequestBody) -/

/-- Whether a fallible computation succeeded. -/
def exceptOk {ε α : Type} : Except ε α → Bool
  | .ok _ => true
  | .error _ => false

/-- JS `String.prototype.length`: UTF-16 code units. -/
def utf16Length (s : List Char) : Nat :=
  (s.map (fun c => if c.toNat < 0x10000 then 1 else 2)).sum

/-- UTF-8 width of one scalar value, as counted by
`TextEncoder().encode(...).length`. -/
def utf8Width (c : Char) : Nat :=
  if c.toNat < 0x80 then 1
  else if c.toNat < 0x800 then 2
  else if c.toNat < 0x10000 then 3
  else 4

/-- Encoded byte length of a string. -/
def byteLength (s : List Char) : Nat := (s.map utf8Width).sum

/-- The request id of `buildRequestParams` (query.ts lines 71-75):
`(Date.now() % 1e8) + (randomComponent % 1e8)` with
`randomComponent = Math.floor(Math.random() * 1e6)` passed explicitly. -/
def requestIdOf (idNow randomComponent : Nat) : Nat :=
  idNow % 100000000 + randomComponent % 100000000

/-- `data.source_lang || "auto"`. -/
def resolvedSourceLang (src : Option (List Char)) : List Char :=
  match src with
  | none => "auto".data
  | some s => if s = [] then "auto".data else s

/-- `data.target_lang || "en"`. -/
def resolvedTargetLang (tgt : Option (List Char)) : List Char :=
  match tgt with
  | none => "en".data
  | some s => if s = [] then "en".data else s

/-- The string the builder serializes for a given text: envelope with
normalized languages, derived id and perturbed timestamp, spacing
variant applied. -/
def builtRequestString (t : List Char) (src tgt : Option (List Char))
    (idNow nowTs rnd alt : Nat) : List Char :=
  applyMethodSpacing (requestIdOf idNow rnd)
    (jsonSerializeBody (requestIdOf idNow rnd)
      (getTimestamp (countLetterI t) nowTs) t
      (normalizeLanguageCode (some (resolvedSourceLang src)))
      (normalizeLanguageCode (some (resolvedTargetLang tgt)))
      alt)

/-- Embedding of `buildRequestBody` (query.ts lines 121-173). A missing
or non-string `text` is modelled as `none` (the typed embedding cannot
express passing a non-string); thrown errors become `Except.error` with
a fixed marker for each interpolated message. `MAX_TEXT_LENGTH` and
`MAX_REQUEST_SIZE` come from `config.ts`, outside the provided sources,
and stay parameters, as do the two `Date.now()` readings, the random
component and `REQUEST_ALTERNATIVES`. -/
def buildRequestBody (text : Option (List Char)) (src tgt : Option (List Char))
    (maxTextLength maxRequestSize idNow nowTs rnd alt : Nat) :
    Except (List Char) (List Char) :=
  match text with
  | none => .error "Invalid request parameters: text is required and must be a string".data
  | some t =>
    if t = [] then
      .error "Invalid request parameters: text is required and must be a string".data
    else if utf16Length t > maxTextLength then
      .error "Text too long".data
    else
      let timestamp := getTimestamp (countLetterI t) nowTs
      if timestamp = 0 then .error "Invalid timestamp generated".data
      else
        let requestString := builtRequestString t src tgt idNow nowTs rnd alt
        if byteLength requestString > maxRequestSize then
          .error "Request payload too large".data
        else .ok requestString

/-- The perturbed timestamp is positive whenever the raw clock is. -/
theorem getTimestamp_pos (n ts : Nat) (h : 0 < ts) : 0 < getTimestamp n ts := by
  simp only [getTimestamp]
  split_ifs with h1 h2 h3
  · exact h
  · exact h
  · exact h3.1
  · exact h

/-- C7: with a positive clock, `buildRequestBody` fails exactly when the
text is missing (or, in the typed embedding, not a string), empty,
longer than the configured maximum, or when the final serialized
payload's encoded byte length exceeds the configured maximum; in every
other case it returns the serialized request string. -/
theorem buildRequestBody_failures (text src tgt : Option (List Char))
    (maxT maxR idNow nowTs rnd alt : Nat) (hts : 0 < nowTs) :
    (exceptOk (buildRequestBody text src tgt maxT maxR idNow nowTs rnd alt) = false ↔
      text = none ∨ text = some [] ∨
      (∃ t, text = some t ∧ maxT < utf16Length t) ∨
      (∃ t, text = some t ∧ utf16Length t ≤ maxT ∧
        maxR < byteLength (builtRequestString t src tgt idNow nowTs rnd alt))) ∧
    (∀ t, text = some t → t ≠ [] → utf16Length t ≤ maxT →
      byteLength (builtRequestString t src tgt idNow nowTs rnd alt) ≤ maxR →
      buildRequestBody text src tgt maxT maxR idNow nowTs rnd alt =
        .ok (builtRequestString t src tgt idNow nowTs rnd alt)) := by
  have hpos := fun t => getTimestamp_pos (countLetterI t) nowTs hts
  constructor
  · cases text with
    | none => simp [buildRequestBody, exceptOk]
    | some t =>
      by_cases hempty : t = []
      · subst hempty
        simp [buildRequestBody, exceptOk]
      · by_cases hlong : utf16Length t > maxT
        · simp only [buildRequestBody, if_neg hempty, if_pos hlong]
          simp [exceptOk, hempty, hlong]
        · by_cases hsize : maxR <
              byteLength (builtRequestString t src tgt idNow nowTs rnd alt)
          · simp only [buildRequestBody, if_neg hempty, if_neg hlong,
              if_neg (Nat.pos_iff_ne_zero.1 (hpos t)), if_pos hsize]
            simp only [exceptOk]
            constructor
            · intro _
              exact Or.inr (Or.inr (Or.inr ⟨t, rfl, by omega, hsize⟩))
            · intro _; trivial
          · simp only [buildRequestBody, if_neg hempty, if_neg hlong,
              if_neg (Nat.pos_iff_ne_zero.1 (hpos t)), if_neg hsize]
            simp only [exceptOk]
            constructor
            · intro hcon; exact absurd hcon (by simp)
            · rintro (hcon | hcon | ⟨t2, ht2, hcon⟩ | ⟨t2, ht2, _, hcon⟩)
              · exact absurd hcon (by simp)
              · rw [Option.some.inj hcon] at hempty
                exact absurd rfl hempty
              · rw [← Option.some.inj ht2] at hcon
                exact absurd hcon (by omega)
              · rw [← Option.some.inj ht2] at hcon
                exact absurd hcon (by omega)
  · intro t ht hne hlen hbytes
    subst ht
    simp only [buildRequestBody, if_neg hne, if_neg (by omega : ¬ utf16Length t > maxT),
      if_neg (Nat.pos_iff_ne_zero.1 (hpos t)),
      if_neg (by omega : ¬ byteLength (builtRequestString t src tgt idNow nowTs rnd alt) > maxR)]

set_option maxRecDepth 16384 in
/-- Witness for `buildRequestBody_failures`: a concrete build of "hello"
with generous limits succeeds, and the empty text fails. -/
theorem buildRequestBody_failures_witness :
    buildRequestBody (some "hello".data) none none 1000 100000 1234 5678 42 3 =
      .ok (builtRequestString "hello".data none none 1234 5678 42 3) ∧
    exceptOk (buildRequestBody (some []) none none 1000 100000 1234 5678 42 3) =
      false := by
  constructor
  · exact (buildRequestBody_failures (some "hello".data) none none 1000 100000
      1234 5678 42 3 (by omega)).2 "hello".data rfl (by decide) (by decide)
      (by decide)
  · exact (buildRequestBody_failures (some []) none none 1000 100000
      1234 5678 42 3 (by omega)).1.2 (Or.inr (Or.inl rfl))

/-! ## Query orchestration (query.ts, query)

The orchestrator composes rate limiting, body construction, the HTTP
call and response handling inside a retry wrapper, and converts every
failure into a standard-shaped result. The collaborators that live
outside the provided sources (`retryLogic.ts`, `errorHandler.ts`,
`types.ts`) are modelled from the spec, as marked below; the upstream
transport is an explicit per-attempt oracle. -/

/-- The caller-supplied request parameters. -/
structure RequestParams where
  text : Option (List Char)
  source_lang : Option (List Char)
  target_lang : Option (List Char)

/-- Modelled from the spec: the closed error taxonomy of spec section 7
(the code tags ad hoc `code`/`status` fields onto `Error` objects). -/
inductive QueryError where
  | validation : List Char → QueryError
  | rateLimit : List Char → QueryError
  | timeout : QueryError
  | transport : List Char → QueryError
  | upstreamHTTP : Nat → QueryError
  | protocol : List Char → QueryError
  | application : Int → QueryError

/-- Modelled from the spec: `isRetryableError` from `retryLogic.ts` is
outside the provided sources; per spec sections 4.6 and 7, network
failures, timeouts and HTTP 429/5xx are retryable, while validation,
local rate-limit denial, protocol and application errors are not. -/
def isRetryableError : QueryError → Bool
  | .timeout => true
  | .transport _ => true
  | .upstreamHTTP s => s == 429 || (500 ≤ s && s < 600)
  | _ => false

/-- Modelled from the spec: `createErrorResponse` from `errorHandler.ts`
is outside the provided sources; per spec sections 6 and 7 it surfaces
400 for invalid input, 429 for rate limiting, 408 for timeouts, the
upstream status for status-coded failures, and 5xx (here 500) for
transport/protocol/application failures. -/
def errorHttpStatus : QueryError → Nat
  | .validation _ => 400
  | .rateLimit _ => 429
  | .timeout => 408
  | .transport _ => 500
  | .upstreamHTTP s => s
  | .protocol _ => 500
  | .application _ => 500

/-- Modelled from the spec: the `TranslationResult` shape of spec
section 3 (`createStandardResponse` from `types.ts` is outside the
provided sources). -/
structure ResponseParams where
  httpStatus : Nat
  translatedText : Option (List Char)
  requestId : Option Nat
  sourceLang : List Char
  targetLang : List Char
deriving DecidableEq

/-- Modelled from the spec: constructor of the single-shape result. -/
def createStandardResponse (httpStatus : Nat) (translatedText : Option (List Char))
    (requestId : Option Nat) (sourceLang targetLang : List Char) : ResponseParams :=
  ⟨httpStatus, translatedText, requestId, sourceLang, targetLang⟩

/-- One translated text in the upstream JSON. -/
structure RawText where
  text : List Char

/-- The `result` payload of the upstream JSON. -/
structure RawResult where
  texts : List RawText
  lang : List Char

/-- The parsed upstream JSON document. -/
structure RawResponse where
  id : Option Nat
  errorCode : Option Int
  result : Option RawResult

/-- What the transport does on one attempt: the abort timer fires, the
network fails, or a response with a status arrives whose body parses to
a document (`none` models a JSON parse failure). -/
inductive FetchOutcome where
  | abort : FetchOutcome
  | netFail : List Char → FetchOutcome
  | response : Nat → Option RawResponse → FetchOutcome

/-- Environment of one attempt: the combined rate-limit verdict for this
attempt, the transport outcome, and this attempt's clock/random
readings. -/
structure AttemptEnv where
  rateAllowed : Bool
  rateReason : Option (List Char)
  fetch : FetchOutcome
  idNow : Nat
  nowTs : Nat
  rnd : Nat

/-- Static configuration of a query call. -/
structure QueryConfig where
  hasEnv : Bool
  maxTextLength : Nat
  maxRequestSize : Nat
  alternatives : Nat

/-- Data extracted from a successful upstream response. -/
structure SuccessData where
  text : List Char
  lang : List Char
  id : Option Nat

/-- One attempt of the orchestrator (query.ts lines 197-342): rate-limit
gate (only when an env binding is present), body construction (whose
validation errors propagate), then the transport outcome classified as
in the source: timeout, network failure, non-2xx status, JSON parse
failure, embedded application error code, missing result payload, or
success. -/
def runAttempt (params : RequestParams) (cfg : QueryConfig) (env : AttemptEnv) :
    Except QueryError SuccessData :=
  if cfg.hasEnv = true ∧ env.rateAllowed = false then
    .error (.rateLimit (env.rateReason.getD "Rate limit exceeded".data))
  else
    match buildRequestBody params.text params.source_lang params.target_lang
        cfg.maxTextLength cfg.maxRequestSize env.idNow env.nowTs env.rnd
        cfg.alternatives with
    | .error m => .error (.validation m)
    | .ok _ =>
      match env.fetch with
      | .abort => .error .timeout
      | .netFail m => .error (.transport m)
      | .response status body =>
        if status < 200 ∨ 300 ≤ status then .error (.upstreamHTTP status)
        else
          match body with
          | none => .error (.protocol "Failed to parse JSON response".data)
          | some r =>
            match r.errorCode with
            | some code => .error (.application code)
            | none =>
              match r.result with
              | none => .error (.protocol "Invalid response structure from DeepL API".data)
              | some res =>
                match res.texts with
                | [] => .error (.protocol "Invalid response structure from DeepL API".data)
                | t0 :: _ => .ok ⟨t0.text, res.lang, r.id⟩

/-- Modelled from the spec: `retryWithBackoff` from `retryLogic.ts` is
outside the provided sources; per spec section 4.6 it runs attempts
sequentially, returning the first success, stopping at a non-retryable
error, and surfacing the last error when attempts are exhausted
(`remaining` counts the attempts still allowed after the current one;
backoff delays do not affect the value semantics). -/
def runRetries (params : RequestParams) (cfg : QueryConfig)
    (envs : Nat → AttemptEnv) : Nat → Nat → Except QueryError SuccessData
  | attempt, 0 => runAttempt params cfg (envs attempt)
  | attempt, remaining + 1 =>
    match runAttempt params cfg (envs attempt) with
    | .ok v => .ok v
    | .error e =>
      if isRetryableError e then runRetries params cfg envs (attempt + 1) remaining
      else .error e

/-- Embedding of `query` (query.ts lines 177-356): missing or empty text
short-circuits to a 400 result before the retry loop; otherwise the
retried attempt either succeeds (status 200 with the translated text,
upstream id and upper-cased detected language) or its final error is
collapsed through the error-response mapping into a result with a null
translation. -/
def query (params : RequestParams) (cfg : QueryConfig) (envs : Nat → AttemptEnv)
    (maxAttempts : Nat) : ResponseParams :=
  if params.text = none ∨ params.text = some [] then
    createStandardResponse 400 none none
      (normalizeLanguageCode (some (resolvedSourceLang params.source_lang)))
      (normalizeLanguageCode (some (resolvedTargetLang params.target_lang)))
  else
    match runRetries params cfg envs 0 (maxAttempts - 1) with
    | .ok v =>
      createStandardResponse 200 (some v.text) v.id (upperStr v.lang)
        (normalizeLanguageCode params.target_lang)
    | .error e =>
      createStandardResponse (errorHttpStatus e) none none
        (normalizeLanguageCode (some (resolvedSourceLang params.source_lang)))
        (normalizeLanguageCode (some (resolvedTargetLang params.target_lang)))

/-- When every attempt is rate-denied, the retry loop surfaces the
rate-limit error of the first attempt (it is not retryable). -/
theorem runRetries_rate_denied (params : RequestParams) (cfg : QueryConfig)
    (envs : Nat → AttemptEnv) (henv : cfg.hasEnv = true)
    (hall : ∀ i, (envs i).rateAllowed = false) :
    ∀ remaining attempt, runRetries params cfg envs attempt remaining =
      .error (.rateLimit ((envs attempt).rateReason.getD "Rate limit exceeded".data)) := by
  have hatt : ∀ a, runAttempt params cfg (envs a) =
      .error (.rateLimit ((envs a).rateReason.getD "Rate limit exceeded".data)) := by
    intro a
    simp only [runAttempt, if_pos (And.intro henv (hall a))]
  intro remaining
  cases remaining with
  | zero => intro attempt; simp only [runRetries, hatt]
  | succ r =>
    intro attempt
    simp only [runRetries, hatt, isRetryableError]
    rfl

/-- C8: the orchestrator is a total function into the single-shape
result: every outcome is either a 200 success or carries a null
translation (no exception escapes); missing or empty text surfaces as a
400 result with null translation, and a rate-limit denial (with an env
binding present) surfaces as a 429 result with null translation. -/
theorem query_spec (params : RequestParams) (cfg : QueryConfig)
    (envs : Nat → AttemptEnv) (maxAttempts : Nat) :
    ((query params cfg envs maxAttempts).httpStatus = 200 ∨
      (query params cfg envs maxAttempts).translatedText = none) ∧
    (params.text = none ∨ params.text = some [] →
      query params cfg envs maxAttempts =
        createStandardResponse 400 none none
          (normalizeLanguageCode (some (resolvedSourceLang params.source_lang)))
          (normalizeLanguageCode (some (resolvedTargetLang params.target_lang)))) ∧
    (¬ (params.text = none ∨ params.text = some []) → cfg.hasEnv = true →
      (∀ i, (envs i).rateAllowed = false) →
      (query params cfg envs maxAttempts).httpStatus = 429 ∧
      (query params cfg envs maxAttempts).translatedText = none) := by
  refine ⟨?_, ?_, ?_⟩
  · by_cases hearly : params.text = none ∨ params.text = some []
    · rw [query, if_pos hearly]
      exact Or.inr rfl
    · rw [query, if_neg hearly]
      cases hrun : runRetries params cfg envs 0 (maxAttempts - 1) with
      | ok v => exact Or.inl rfl
      | error e => exact Or.inr rfl
  · intro hearly
    rw [query, if_pos hearly]
  · intro hearly henv hall
    rw [query, if_neg hearly,
      runRetries_rate_denied params cfg envs henv hall (maxAttempts - 1) 0]
    exact ⟨rfl, rfl⟩

/-- Witness for `query_spec`: a concrete query with text "hi" and every
attempt rate-denied yields a 429 result with no translation. -/
theorem query_spec_witness :
    (query ⟨some "hi".data, none, none⟩ ⟨true, 1000, 100000, 3⟩
      (fun _ => ⟨false, none, FetchOutcome.abort, 1, 1, 1⟩) 3).httpStatus = 429 ∧
    (query ⟨some "hi".data, none, none⟩ ⟨true, 1000, 100000, 3⟩
      (fun _ => ⟨false, none, FetchOutcome.abort, 1, 1, 1⟩) 3).translatedText =
      none :=
  (query_spec ⟨some "hi".data, none, none⟩ ⟨true, 1000, 100000, 3⟩
    (fun _ => ⟨false, none, FetchOutcome.abort, 1, 1, 1⟩) 3).2.2
    (by simp) rfl (fun _ => rfl)
